import Mathlib

/-!
Verification of the Detective Quest program (src/detetivequest.c).

C strings are modelled as lists of bytes (`List Nat`, values of the
`unsigned char` range); a `char *` that may be NULL is an `Option`.
Each definition is a direct transliteration of the corresponding C
function and keeps its name.
-/

set_option maxHeartbeats 1000000

/-- Byte-level model of C `tolower` in the C locale (used as
`tolower((unsigned char)c)` in the source): maps A-Z to a-z and leaves
every other byte unchanged. -/
def tolowerByte (c : Nat) : Nat :=
  if 65 ≤ c ∧ c ≤ 90 then c + 32 else c

/-- `trim_nl` (src lines 62-67): drops the final byte of the line when it
is a newline; otherwise leaves the line unchanged. Only the last byte is
inspected. -/
def trim_nl (s : List Nat) : List Nat :=
  match s.getLast? with
  | some c => if c = 10 then s.dropLast else s
  | none => s

/-- C `strcmp` on NUL-free byte strings, returning the sign of the result
as an `Ordering` (the C code only ever tests the sign / zero-ness). -/
def strcmp : List Nat → List Nat → Ordering
  | [], [] => Ordering.eq
  | [], _ :: _ => Ordering.lt
  | _ :: _, [] => Ordering.gt
  | a :: as, b :: bs =>
    if a < b then Ordering.lt
    else if b < a then Ordering.gt
    else strcmp as bs

/-- BST node for collected clues (`struct PistaNode`, src lines 30-35). -/
inductive PistaNode where
  | nulo : PistaNode
  | no (pista : List Nat) (contador : Nat) (esq dir : PistaNode) : PistaNode
deriving DecidableEq

/-- `novoNoPista` (src lines 106-116): fresh leaf with counter 1. -/
def novoNoPista (pista : List Nat) : PistaNode :=
  PistaNode.no pista 1 PistaNode.nulo PistaNode.nulo

/-- `inserirPista` (src lines 119-130): BST insert keyed by `strcmp`;
an exact match increments the counter instead of allocating. -/
def inserirPista : PistaNode → List Nat → PistaNode
  | PistaNode.nulo, pista => novoNoPista pista
  | PistaNode.no q c e d, pista =>
    match strcmp pista q with
    | Ordering.eq => PistaNode.no q (c + 1) e d
    | Ordering.lt => PistaNode.no q c (inserirPista e pista) d
    | Ordering.gt => PistaNode.no q c e (inserirPista d pista)

/-- `exibirPistasInOrder` (src lines 133-138) prints the in-order
traversal; we model the sequence of printed (clue, counter) pairs. -/
def exibirPistasInOrder : PistaNode → List (List Nat × Nat)
  | PistaNode.nulo => []
  | PistaNode.no q c e d =>
      exibirPistasInOrder e ++ (q, c) :: exibirPistasInOrder d

/-- Number of nodes of a clue BST. -/
def numNos : PistaNode → Nat
  | PistaNode.nulo => 0
  | PistaNode.no _ _ e d => numNos e + numNos d + 1

/-- Keys of a clue BST, in in-order. -/
def chaves : PistaNode → List (List Nat)
  | PistaNode.nulo => []
  | PistaNode.no q _ e d => chaves e ++ q :: chaves d

/-- Total count stored for a given clue (sum over all nodes carrying
that exact key; in a BST there is at most one such node). -/
def contadorDe : PistaNode → List Nat → Nat
  | PistaNode.nulo, _ => 0
  | PistaNode.no q c e d, p =>
      (if p = q then c else 0) + contadorDe e p + contadorDe d p

/-- The shape of a clue BST with all data erased. -/
inductive Forma where
  | folha : Forma
  | ramo (e d : Forma) : Forma
deriving DecidableEq

/-- Shape-erasure of a clue BST. -/
def forma : PistaNode → Forma
  | PistaNode.nulo => Forma.folha
  | PistaNode.no _ _ e d => Forma.ramo (forma e) (forma d)

/-- All keys of the tree satisfy a boolean predicate. -/
def todasChaves (f : List Nat → Bool) : PistaNode → Bool
  | PistaNode.nulo => true
  | PistaNode.no q _ e d => f q && todasChaves f e && todasChaves f d

/-- The binary-search-tree invariant for the clue ledger, with strict
`strcmp` order between a node and each key of its subtrees. -/
def ehBST : PistaNode → Bool
  | PistaNode.nulo => true
  | PistaNode.no q _ e d =>
      todasChaves (fun p => decide (strcmp p q = Ordering.lt)) e &&
      todasChaves (fun p => decide (strcmp q p = Ordering.lt)) d &&
      ehBST e && ehBST d

/-! ### Order lemmas for `strcmp` -/

theorem strcmp_self (a : List Nat) : strcmp a a = Ordering.eq := by
  induction a with
  | nil => rfl
  | cons x xs ih => simp [strcmp, ih]

theorem strcmp_eq_iff {a b : List Nat} : strcmp a b = Ordering.eq ↔ a = b := by
  induction a generalizing b with
  | nil => cases b <;> simp [strcmp]
  | cons x xs ih =>
    cases b with
    | nil => simp [strcmp]
    | cons y ys =>
      rcases Nat.lt_trichotomy x y with h | h | h
      · simp [strcmp, h]
        omega
      · subst h
        simp [strcmp, ih]
      · rw [strcmp, if_neg (by omega), if_pos h]
        simp
        omega

theorem strcmp_flip {a b : List Nat} :
    strcmp a b = Ordering.gt ↔ strcmp b a = Ordering.lt := by
  induction a generalizing b with
  | nil => cases b <;> simp [strcmp]
  | cons x xs ih =>
    cases b with
    | nil => simp [strcmp]
    | cons y ys =>
      rcases Nat.lt_trichotomy x y with h | h | h
      · rw [strcmp, if_pos h, strcmp, if_neg (by omega), if_pos h]
        simp
      · subst h
        simp [strcmp, ih]
      · rw [strcmp, if_neg (by omega), if_pos h, strcmp, if_pos h]
        simp

theorem strcmp_lt_trans {a b c : List Nat}
    (h1 : strcmp a b = Ordering.lt) (h2 : strcmp b c = Ordering.lt) :
    strcmp a c = Ordering.lt := by
  induction a generalizing b c with
  | nil =>
    cases b with
    | nil => simp [strcmp] at h1
    | cons y ys =>
      cases c with
      | nil => simp [strcmp] at h2
      | cons z zs => simp [strcmp]
  | cons x xs ih =>
    cases b with
    | nil => simp [strcmp] at h1
    | cons y ys =>
      cases c with
      | nil => simp [strcmp] at h2
      | cons z zs =>
        rcases Nat.lt_trichotomy x y with hxy | hxy | hxy
        · rw [strcmp, if_pos hxy] at h1
          rcases Nat.lt_trichotomy y z with hyz | hyz | hyz
          · rw [strcmp, if_pos (by omega)]
          · subst hyz
            rw [strcmp, if_pos hxy]
          · rw [strcmp, if_neg (by omega), if_pos hyz] at h2
            cases h2
        · subst hxy
          rw [strcmp, if_neg (by omega), if_neg (by omega)] at h1
          rcases Nat.lt_trichotomy x z with hyz | hyz | hyz
          · rw [strcmp, if_pos hyz]
          · subst hyz
            rw [strcmp, if_neg (by omega), if_neg (by omega)] at h2 ⊢
            exact ih h1 h2
          · rw [strcmp, if_neg (by omega), if_pos hyz] at h2
            cases h2
        · rw [strcmp, if_neg (by omega), if_pos hxy] at h1
          cases h1

/-! ### BST invariant and sortedness of the in-order traversal -/

theorem todasChaves_inserirPista {f : List Nat → Bool} {t : PistaNode}
    {p : List Nat} (ht : todasChaves f t = true) (hp : f p = true) :
    todasChaves f (inserirPista t p) = true := by
  induction t with
  | nulo => simp [inserirPista, novoNoPista, todasChaves, hp]
  | no q c e d ihe ihd =>
    simp only [todasChaves, Bool.and_eq_true] at ht
    cases h : strcmp p q with
    | eq => simp [inserirPista, h, todasChaves, ht.1.1, ht.1.2, ht.2]
    | lt =>
      simp [inserirPista, h, todasChaves, ht.1.1, ht.2, ihe ht.1.2]
    | gt =>
      simp [inserirPista, h, todasChaves, ht.1.1, ht.1.2, ihd ht.2]

theorem ehBST_inserirPista {t : PistaNode} {p : List Nat}
    (ht : ehBST t = true) : ehBST (inserirPista t p) = true := by
  induction t with
  | nulo => simp [inserirPista, novoNoPista, ehBST, todasChaves]
  | no q c e d ihe ihd =>
    simp only [ehBST, Bool.and_eq_true] at ht
    cases h : strcmp p q with
    | eq => simp [inserirPista, h, ehBST, ht.1.1.1, ht.1.1.2, ht.1.2, ht.2]
    | lt =>
      have he : todasChaves (fun r => decide (strcmp r q = Ordering.lt))
          (inserirPista e p) = true :=
        todasChaves_inserirPista ht.1.1.1 (by simp [h])
      simp [inserirPista, h, ehBST, he, ht.1.1.2, ht.2, ihe ht.1.2]
    | gt =>
      have hd : todasChaves (fun r => decide (strcmp q r = Ordering.lt))
          (inserirPista d p) = true :=
        todasChaves_inserirPista ht.1.1.2 (by simp [strcmp_flip.mp h])
      simp [inserirPista, h, ehBST, ht.1.1.1, hd, ht.1.2, ihd ht.2]

theorem todasChaves_mem {f : List Nat → Bool} {t : PistaNode}
    (ht : todasChaves f t = true) {e : List Nat × Nat}
    (he : e ∈ exibirPistasInOrder t) : f e.1 = true := by
  induction t with
  | nulo => simp [exibirPistasInOrder] at he
  | no q c l r ihl ihr =>
    simp only [todasChaves, Bool.and_eq_true] at ht
    simp only [exibirPistasInOrder, List.mem_append, List.mem_cons] at he
    rcases he with h | h | h
    · exact ihl ht.1.2 h
    · subst h
      exact ht.1.1
    · exact ihr ht.2 h

theorem ehBST_pairwise {t : PistaNode} (ht : ehBST t = true) :
    List.Pairwise (fun a b => strcmp a.1 b.1 = Ordering.lt)
      (exibirPistasInOrder t) := by
  induction t with
  | nulo => simp [exibirPistasInOrder]
  | no q c e d ihe ihd =>
    simp only [ehBST, Bool.and_eq_true] at ht
    simp only [exibirPistasInOrder, List.pairwise_append, List.pairwise_cons]
    refine ⟨ihe ht.1.2, ⟨?_, ihd ht.2⟩, ?_⟩
    · intro b hb
      have := todasChaves_mem ht.1.1.2 hb
      simpa using this
    · intro a ha b hb
      have ha1 : strcmp a.1 q = Ordering.lt := by
        simpa using todasChaves_mem ht.1.1.1 ha
      rcases List.mem_cons.mp hb with h | h
      · subst h
        exact ha1
      · have hb1 : strcmp q b.1 = Ordering.lt := by
          simpa using todasChaves_mem ht.1.1.2 h
        exact strcmp_lt_trans ha1 hb1

theorem ehBST_foldl {ps : List (List Nat)} {t : PistaNode}
    (ht : ehBST t = true) : ehBST (ps.foldl inserirPista t) = true := by
  induction ps generalizing t with
  | nil => exact ht
  | cons p ps ih => exact ih (ehBST_inserirPista ht)

/-! ### Counting lemmas for `inserirPista` -/

theorem mem_chaves_inserirPista {t : PistaNode} {p q : List Nat} :
    q ∈ chaves (inserirPista t p) ↔ q ∈ chaves t ∨ q = p := by
  induction t with
  | nulo => simp [inserirPista, novoNoPista, chaves]
  | no k c e d ihe ihd =>
    cases h : strcmp p k with
    | eq =>
      have : p = k := strcmp_eq_iff.mp h
      subst this
      simp only [inserirPista, h, chaves, List.mem_append, List.mem_cons]
      constructor
      · intro hq
        exact Or.inl hq
      · rintro (hq | rfl)
        · exact hq
        · exact Or.inr (Or.inl rfl)
    | lt =>
      simp only [inserirPista, h, chaves, List.mem_append, List.mem_cons, ihe]
      tauto
    | gt =>
      simp only [inserirPista, h, chaves, List.mem_append, List.mem_cons, ihd]
      tauto

theorem numNos_inserirPista_nova {t : PistaNode} {p : List Nat}
    (hp : p ∉ chaves t) : numNos (inserirPista t p) = numNos t + 1 := by
  induction t with
  | nulo => simp [inserirPista, novoNoPista, numNos]
  | no k c e d ihe ihd =>
    simp only [chaves, List.mem_append, List.mem_cons, not_or] at hp
    cases h : strcmp p k with
    | eq => exact absurd (strcmp_eq_iff.mp h) hp.2.1
    | lt =>
      simp only [inserirPista, h, numNos, ihe hp.1]
      omega
    | gt =>
      simp only [inserirPista, h, numNos, ihd hp.2.2]
      omega

theorem contadores_um_inserirPista {t : PistaNode} {p : List Nat}
    (h1 : ∀ e ∈ exibirPistasInOrder t, e.2 = 1) (hp : p ∉ chaves t) :
    ∀ e ∈ exibirPistasInOrder (inserirPista t p), e.2 = 1 := by
  induction t with
  | nulo =>
    intro e he
    simp only [inserirPista, novoNoPista, exibirPistasInOrder,
      List.mem_append, List.mem_cons] at he
    rcases he with h | h | h
    · simp [exibirPistasInOrder] at h
    · subst h
      rfl
    · simp [exibirPistasInOrder] at h
  | no k c e d ihe ihd =>
    simp only [chaves, List.mem_append, List.mem_cons, not_or] at hp
    simp only [exibirPistasInOrder, List.mem_append, List.mem_cons] at h1
    cases h : strcmp p k with
    | eq => exact absurd (strcmp_eq_iff.mp h) hp.2.1
    | lt =>
      intro x hx
      simp only [inserirPista, h, exibirPistasInOrder, List.mem_append,
        List.mem_cons] at hx
      rcases hx with hx | hx | hx
      · exact ihe (fun y hy => h1 y (Or.inl hy)) hp.1 x hx
      · subst hx
        exact h1 (k, c) (Or.inr (Or.inl rfl))
      · exact h1 x (Or.inr (Or.inr hx))
    | gt =>
      intro x hx
      simp only [inserirPista, h, exibirPistasInOrder, List.mem_append,
        List.mem_cons] at hx
      rcases hx with hx | hx | hx
      · exact h1 x (Or.inl hx)
      · subst hx
        exact h1 (k, c) (Or.inr (Or.inl rfl))
      · exact ihd (fun y hy => h1 y (Or.inr (Or.inr hy))) hp.2.2 x hx

theorem foldl_inserirPista_distintas {ps : List (List Nat)} {t : PistaNode}
    (hps : ps.Pairwise (· ≠ ·)) (hfresh : ∀ p ∈ ps, p ∉ chaves t)
    (h1 : ∀ e ∈ exibirPistasInOrder t, e.2 = 1) :
    numNos (ps.foldl inserirPista t) = numNos t + ps.length ∧
    ∀ e ∈ exibirPistasInOrder (ps.foldl inserirPista t), e.2 = 1 := by
  induction ps generalizing t with
  | nil => simpa using h1
  | cons p ps ih =>
    rcases List.pairwise_cons.mp hps with ⟨hne, hps2⟩
    have hpt : p ∉ chaves t := hfresh p (List.mem_cons_self p ps)
    have hfresh2 : ∀ q ∈ ps, q ∉ chaves (inserirPista t p) := by
      intro q hq
      rw [mem_chaves_inserirPista]
      rintro (hc | rfl)
      · exact hfresh q (List.mem_cons_of_mem p hq) hc
      · exact hne q hq rfl
    have h1b := contadores_um_inserirPista h1 hpt
    have := ih hps2 hfresh2 h1b
    refine ⟨?_, this.2⟩
    rw [List.foldl_cons, this.1, numNos_inserirPista_nova hpt, List.length_cons]
    omega

theorem foldl_inserirPista_repetida (p : List Nat) :
    ∀ n c, (List.replicate n p).foldl inserirPista
        (PistaNode.no p c PistaNode.nulo PistaNode.nulo) =
      PistaNode.no p (c + n) PistaNode.nulo PistaNode.nulo := by
  intro n
  induction n with
  | zero => intro c; rfl
  | succ m ih =>
    intro c
    rw [List.replicate_succ, List.foldl_cons]
    have hstep : inserirPista (PistaNode.no p c PistaNode.nulo PistaNode.nulo) p
        = PistaNode.no p (c + 1) PistaNode.nulo PistaNode.nulo := by
      simp [inserirPista, strcmp_self]
    rw [hstep, ih]
    congr 1
    omega

theorem todasChaves_mem_chaves {f : List Nat → Bool} {t : PistaNode}
    (ht : todasChaves f t = true) {q : List Nat} (hq : q ∈ chaves t) :
    f q = true := by
  induction t with
  | nulo => simp [chaves] at hq
  | no k c e d ihe ihd =>
    simp only [todasChaves, Bool.and_eq_true] at ht
    simp only [chaves, List.mem_append, List.mem_cons] at hq
    rcases hq with h | h | h
    · exact ihe ht.1.2 h
    · subst h
      exact ht.1.1
    · exact ihd ht.2 h

theorem inserirPista_presente {t : PistaNode} {p : List Nat}
    (hb : ehBST t = true) (hp : p ∈ chaves t) :
    forma (inserirPista t p) = forma t ∧
    chaves (inserirPista t p) = chaves t ∧
    contadorDe (inserirPista t p) p = contadorDe t p + 1 ∧
    ∀ q, q ≠ p → contadorDe (inserirPista t p) q = contadorDe t q := by
  induction t with
  | nulo => simp [chaves] at hp
  | no k c e d ihe ihd =>
    simp only [ehBST, Bool.and_eq_true] at hb
    cases h : strcmp p k with
    | eq =>
      have hpk : p = k := strcmp_eq_iff.mp h
      subst hpk
      refine ⟨?_, ?_, ?_, ?_⟩
      · simp [inserirPista, h, forma]
      · simp [inserirPista, h, chaves]
      · simp [inserirPista, h, contadorDe]
        omega
      · intro q hq
        simp only [inserirPista, h, contadorDe, if_neg hq]
    | lt =>
      have hpk : p ≠ k := by
        intro hc
        subst hc
        rw [strcmp_self] at h
        cases h
      have hpe : p ∈ chaves e := by
        simp only [chaves, List.mem_append, List.mem_cons] at hp
        rcases hp with hx | hx | hx
        · exact hx
        · exact absurd hx hpk
        · have := todasChaves_mem_chaves hb.1.1.2 hx
          simp only [decide_eq_true_eq] at this
          rw [← strcmp_flip] at this
          rw [this] at h
          cases h
      obtain ⟨hf, hc, hcp, hcq⟩ := ihe hb.1.2 hpe
      refine ⟨?_, ?_, ?_, ?_⟩
      · simp only [inserirPista, h, forma, hf]
      · simp only [inserirPista, h, chaves, hc]
      · simp only [inserirPista, h, contadorDe, hcp, if_neg hpk]
        omega
      · intro q hq
        simp only [inserirPista, h, contadorDe, hcq q hq]
    | gt =>
      have hpk : p ≠ k := by
        intro hc
        subst hc
        rw [strcmp_self] at h
        cases h
      have hpd : p ∈ chaves d := by
        simp only [chaves, List.mem_append, List.mem_cons] at hp
        rcases hp with hx | hx | hx
        · have := todasChaves_mem_chaves hb.1.1.1 hx
          simp only [decide_eq_true_eq] at this
          rw [this] at h
          cases h
        · exact absurd hx hpk
        · exact hx
      obtain ⟨hf, hc, hcp, hcq⟩ := ihd hb.2 hpd
      refine ⟨?_, ?_, ?_, ?_⟩
      · simp only [inserirPista, h, forma, hf]
      · simp only [inserirPista, h, chaves, hc]
      · simp only [inserirPista, h, contadorDe, hcp, if_neg hpk]
        omega
      · intro q hq
        simp only [inserirPista, h, contadorDe, hcq q hq]

/-! ### Association Table (hash table, src lines 37-201) -/

/-- `HASH_SIZE` (src line 44). -/
def HASH_SIZE : Nat := 31

/-- `hash_djb2` (src lines 153-159): `unsigned long` (64-bit) djb2,
`hash = hash * 33 + byte` with wraparound. -/
def hash_djb2 (s : List Nat) : Nat :=
  s.foldl (fun h c => (h * 33 + c) % 2 ^ 64) 5381

/-- Bucket index of a clue: `hash_djb2(pista) % HASH_SIZE`. -/
def indiceHash (pista : List Nat) : Fin HASH_SIZE :=
  ⟨hash_djb2 pista % HASH_SIZE, Nat.mod_lt _ (by decide)⟩

/-- The global `tabelaHash`: an array of `HASH_SIZE` collision chains,
each chain a list of (clue, suspect) entries (`struct HashEntry`). -/
def Tabela : Type := Fin HASH_SIZE → List (List Nat × List Nat)

/-- The table after `main`'s initialization loop (src line 277). -/
def tabelaVazia : Tabela := fun _ => []

/-- `inserirNaHash` (src lines 162-173): prepends a new entry to the
bucket selected by the hash of the clue. -/
def inserirNaHash (tbl : Tabela) (pista suspeito : List Nat) : Tabela :=
  fun i => if i = indiceHash pista then (pista, suspeito) :: tbl i else tbl i

/-- `encontrarSuspeito` (src lines 176-186): scans the clue's bucket
chain and returns the suspect of the first entry whose key `strcmp`s
equal; `none` models the NULL not-found return. -/
def encontrarSuspeito (tbl : Tabela) (pista : List Nat) : Option (List Nat) :=
  ((tbl (indiceHash pista)).find? (fun e => e.1 == pista)).map Prod.snd

/-- A sequence of `inserirNaHash` calls starting from the empty table,
as `main` performs at startup (src lines 315-319). -/
def montarTabela (es : List (List Nat × List Nat)) : Tabela :=
  es.foldl (fun t e => inserirNaHash t e.1 e.2) tabelaVazia

/-- `contarPistasQueApontam` (src lines 259-270): walks the whole clue
BST; at each node it resolves the clue through the table and adds the
node's counter when the resolved suspect equals the target; it always
recurses into both children. -/
def contarPistasQueApontam (tbl : Tabela) : PistaNode → List Nat → Nat
  | PistaNode.nulo, _ => 0
  | PistaNode.no q c e d, alvo =>
      (match encontrarSuspeito tbl q with
       | some sus => if sus = alvo then c else 0
       | none => 0) +
      contarPistasQueApontam tbl e alvo + contarPistasQueApontam tbl d alvo

/-- The two verdicts printed by `main` (src lines 349-353). -/
inductive Veredicto where
  | sustentada : Veredicto
  | fraca : Veredicto
deriving DecidableEq

/-- The verdict rule of `main` (src line 349): at least 2 clues. -/
def avaliarVeredicto (totalQueApontam : Nat) : Veredicto :=
  if 2 ≤ totalQueApontam then Veredicto.sustentada else Veredicto.fraca

/-- Outcome of the accusation phase of `main` (src lines 341-354):
either the distinct no-accusation exit or a tally plus verdict. -/
inductive ResultadoAcusacao where
  | semAcusacao : ResultadoAcusacao
  | acusado (total : Nat) (veredicto : Veredicto) : ResultadoAcusacao
deriving DecidableEq

/-- The accusation phase of `main` (src lines 341-354): trims the
newline from the read line; an empty name short-circuits to the
no-accusation outcome, otherwise the tally is computed and judged. -/
def faseAcusacao (entrada : List Nat) (rootPistas : PistaNode)
    (tbl : Tabela) : ResultadoAcusacao :=
  match trim_nl entrada with
  | [] => ResultadoAcusacao.semAcusacao
  | c :: cs =>
      ResultadoAcusacao.acusado
        (contarPistasQueApontam tbl rootPistas (c :: cs))
        (avaliarVeredicto (contarPistasQueApontam tbl rootPistas (c :: cs)))

/-! ### Lookup lemmas for the Association Table -/

theorem encontrarSuspeito_inserirNaHash (tbl : Tabela) (p s q : List Nat) :
    encontrarSuspeito (inserirNaHash tbl p s) q =
      if q = p then some s else encontrarSuspeito tbl q := by
  by_cases hqp : q = p
  · subst hqp
    simp [encontrarSuspeito, inserirNaHash, List.find?]
  · by_cases hb : indiceHash q = indiceHash p
    · rw [if_neg hqp]
      have hpq : (p == q) = false := by
        simp only [beq_eq_false_iff_ne, ne_eq]
        exact fun hc => hqp hc.symm
      simp [encontrarSuspeito, inserirNaHash, hb, List.find?, hpq]
    · rw [if_neg hqp]
      simp [encontrarSuspeito, inserirNaHash, hb]

theorem encontrarSuspeito_foldl (es : List (List Nat × List Nat))
    (t : Tabela) (q : List Nat) :
    encontrarSuspeito (es.foldl (fun t e => inserirNaHash t e.1 e.2) t) q =
      match es.reverse.find? (fun e => e.1 == q) with
      | some e => some e.2
      | none => encontrarSuspeito t q := by
  induction es generalizing t with
  | nil => simp
  | cons a es ih =>
    rw [List.foldl_cons, ih, List.reverse_cons, List.find?_append]
    cases hr : es.reverse.find? (fun e => e.1 == q) with
    | some e => simp [Option.or]
    | none =>
      simp only [Option.none_or]
      by_cases hqa : q = a.1
      · subst hqa
        simp [List.find?, encontrarSuspeito_inserirNaHash]
      · have : (a.1 == q) = false := by
          simp only [beq_eq_false_iff_ne, ne_eq]
          exact fun hc => hqa hc.symm
        simp [List.find?, this, encontrarSuspeito_inserirNaHash, hqa]

theorem contarPistasQueApontam_soma (tbl : Tabela) (t : PistaNode)
    (alvo : List Nat) :
    contarPistasQueApontam tbl t alvo =
      (((exibirPistasInOrder t).filter
          (fun e => decide (encontrarSuspeito tbl e.1 = some alvo))).map
        Prod.snd).sum := by
  induction t with
  | nulo => rfl
  | no q c e d ihe ihd =>
    simp only [contarPistasQueApontam, exibirPistasInOrder,
      List.filter_append, List.filter_cons, List.map_append,
      List.sum_append, ihe, ihd]
    cases h : encontrarSuspeito tbl q with
    | none =>
      simp only [h, decide_eq_true_eq]
      simp
    | some sus =>
      by_cases hsa : sus = alvo
      · subst hsa
        simp only [h, decide_eq_true_eq, if_pos rfl]
        simp
        omega
      · have : ¬ (some sus = some alvo) := by
          intro hc
          exact hsa (Option.some.inj hc)
        simp only [h, decide_eq_true_eq, if_neg hsa, if_neg this]
        simp

/-! ### Room tree and exploration engine (src lines 21-27, 212-254) -/

/-- `struct Sala` (src lines 21-27): `nulo` models a NULL `Sala *`;
a room has a name, an optional clue, a collected flag and two children. -/
inductive Sala where
  | nulo : Sala
  | mk (nome : List Nat) (pista : Option (List Nat)) (pistaColetada : Bool)
      (esq dir : Sala) : Sala
deriving DecidableEq

/-- The room reached from `m` by a path of left (`false`) / right
(`true`) steps; `nulo` when the walk leaves the tree. This models the
`atual` pointer, which always points inside the original tree. -/
def salaEm : Sala → List Bool → Sala
  | s, [] => s
  | Sala.nulo, _ :: _ => Sala.nulo
  | Sala.mk _ _ _ e _, false :: bs => salaEm e bs
  | Sala.mk _ _ _ _ d, true :: bs => salaEm d bs

/-- Sets `pistaColetada = 1` on the room at the given path (the single
mutation `atual->pistaColetada = 1`, src line 222), leaving every other
field and every other room untouched. -/
def marcarColetada : Sala → List Bool → Sala
  | Sala.nulo, _ => Sala.nulo
  | Sala.mk n p _ e d, [] => Sala.mk n p true e d
  | Sala.mk n p c e d, false :: bs => Sala.mk n p c (marcarColetada e bs) d
  | Sala.mk n p c e d, true :: bs => Sala.mk n p c e (marcarColetada d bs)

/-- The clue stored at a path (`none` = no room there). -/
def pistaEm (m : Sala) (q : List Bool) : Option (Option (List Nat)) :=
  match salaEm m q with
  | Sala.nulo => none
  | Sala.mk _ p _ _ _ => some p

/-- The name stored at a path (`none` = no room there). -/
def nomeEm (m : Sala) (q : List Bool) : Option (List Nat) :=
  match salaEm m q with
  | Sala.nulo => none
  | Sala.mk n _ _ _ _ => some n

/-- The collected flag at a path (`none` = no room there). -/
def coletadaEm (m : Sala) (q : List Bool) : Option Bool :=
  match salaEm m q with
  | Sala.nulo => none
  | Sala.mk _ _ c _ _ => some c

/-- State of `explorarSalasComPistas`: the (mutable) room tree, the
path of the `atual` pointer, and the clue BST `*rootPistas`. -/
structure Estado where
  mapa : Sala
  caminho : List Bool
  pistas : PistaNode
deriving DecidableEq

/-- The visit at the top of each loop iteration (src lines 218-227):
a present, uncollected clue is inserted into the ledger and the room is
marked collected; otherwise (already collected, or no clue) nothing
changes. -/
def visitarSala (st : Estado) : Estado :=
  match salaEm st.mapa st.caminho with
  | Sala.mk _ (some p) false _ _ =>
      { st with
        pistas := inserirPista st.pistas p
        mapa := marcarColetada st.mapa st.caminho }
  | _ => st

/-- The `e` command (src lines 238-243): move to the left child when it
exists, otherwise stay (only a message is printed). -/
def moverEsquerda (st : Estado) : Estado :=
  match salaEm st.mapa (st.caminho ++ [false]) with
  | Sala.nulo => st
  | _ => { st with caminho := st.caminho ++ [false] }

/-- The `d` command (src lines 244-249): move to the right child when it
exists, otherwise stay. -/
def moverDireita (st : Estado) : Estado :=
  match salaEm st.mapa (st.caminho ++ [true]) with
  | Sala.nulo => st
  | _ => { st with caminho := st.caminho ++ [true] }

/-- Handling of one read line (src lines 231-252): trim the newline,
skip empty lines, lowercase the first byte and dispatch on it. The
returned flag is `true` when the loop `break`s (command `s`). -/
def processarComando (st : Estado) (linha : List Nat) : Estado × Bool :=
  match trim_nl linha with
  | [] => (st, false)
  | c0 :: _ =>
      let cmd := tolowerByte c0
      if cmd = 115 then (st, true)
      else if cmd = 101 then (moverEsquerda st, false)
      else if cmd = 100 then (moverDireita st, false)
      else (st, false)

/-- `explorarSalasComPistas` (src lines 212-254) driven by the list of
lines the input collaborator will supply: each iteration visits the
current room, then reads a line (end of input breaks the loop, as a
failed `fgets` does) and processes it. -/
def explorarSalasComPistas : Estado → List (List Nat) → Estado
  | st, [] => visitarSala st
  | st, l :: ls =>
      match processarComando (visitarSala st) l with
      | (st2, true) => st2
      | (st2, false) => explorarSalasComPistas st2 ls

/-! ### Frame lemmas for the exploration engine -/

theorem pistaEm_marcarColetada (m : Sala) (r q : List Bool) :
    pistaEm (marcarColetada m r) q = pistaEm m q := by
  induction m generalizing r q with
  | nulo => cases r <;> rfl
  | mk n p c e d ihe ihd =>
    cases r with
    | nil =>
      cases q with
      | nil => rfl
      | cons qb qbs => cases qb <;> rfl
    | cons rb rbs =>
      cases rb with
      | false =>
        cases q with
        | nil => rfl
        | cons qb qbs =>
          cases qb with
          | false => exact ihe rbs qbs
          | true => rfl
      | true =>
        cases q with
        | nil => rfl
        | cons qb qbs =>
          cases qb with
          | false => rfl
          | true => exact ihd rbs qbs

theorem coletadaEm_marcarColetada (m : Sala) (r q : List Bool)
    (h : coletadaEm m q = some true) :
    coletadaEm (marcarColetada m r) q = some true := by
  induction m generalizing r q with
  | nulo => cases r <;> exact h
  | mk n p c e d ihe ihd =>
    cases r with
    | nil =>
      cases q with
      | nil => rfl
      | cons qb qbs => cases qb <;> exact h
    | cons rb rbs =>
      cases rb with
      | false =>
        cases q with
        | nil => exact h
        | cons qb qbs =>
          cases qb with
          | false => exact ihe rbs qbs h
          | true => exact h
      | true =>
        cases q with
        | nil => exact h
        | cons qb qbs =>
          cases qb with
          | false => exact h
          | true => exact ihd rbs qbs h

theorem pistaEm_visitarSala (st : Estado) (q : List Bool) :
    pistaEm (visitarSala st).mapa q = pistaEm st.mapa q := by
  unfold visitarSala
  split
  · exact pistaEm_marcarColetada _ _ _
  · rfl

theorem coletadaEm_visitarSala (st : Estado) (q : List Bool)
    (h : coletadaEm st.mapa q = some true) :
    coletadaEm (visitarSala st).mapa q = some true := by
  unfold visitarSala
  split
  · exact coletadaEm_marcarColetada _ _ _ h
  · exact h

theorem visitarSala_ja_coletada (st : Estado)
    (h : coletadaEm st.mapa st.caminho = some true) : visitarSala st = st := by
  unfold coletadaEm at h
  cases hs : salaEm st.mapa st.caminho with
  | nulo => simp [hs] at h
  | mk n p c e d =>
    rw [hs] at h
    simp at h
    subst h
    unfold visitarSala
    cases p with
    | none => simp [hs]
    | some pv => simp [hs]

theorem processarComando_mapa (st : Estado) (l : List Nat) :
    (processarComando st l).1.mapa = st.mapa ∧
    (processarComando st l).1.pistas = st.pistas := by
  unfold processarComando
  split
  · exact ⟨rfl, rfl⟩
  · dsimp only
    split_ifs
    · exact ⟨rfl, rfl⟩
    · unfold moverEsquerda
      split <;> exact ⟨rfl, rfl⟩
    · unfold moverDireita
      split <;> exact ⟨rfl, rfl⟩
    · exact ⟨rfl, rfl⟩

theorem explorar_preserva (st : Estado) (linhas : List (List Nat))
    (q : List Bool) :
    pistaEm (explorarSalasComPistas st linhas).mapa q = pistaEm st.mapa q ∧
    (coletadaEm st.mapa q = some true →
      coletadaEm (explorarSalasComPistas st linhas).mapa q = some true) := by
  induction linhas generalizing st with
  | nil =>
    exact ⟨pistaEm_visitarSala st q, coletadaEm_visitarSala st q⟩
  | cons l ls ih =>
    unfold explorarSalasComPistas
    rcases hp : processarComando (visitarSala st) l with ⟨st2, b⟩
    have hmapa : st2.mapa = (visitarSala st).mapa := by
      have := processarComando_mapa (visitarSala st) l
      rw [hp] at this
      exact this.1
    cases b with
    | true =>
      dsimp only
      constructor
      · rw [hmapa]
        exact pistaEm_visitarSala st q
      · intro h
        rw [hmapa]
        exact coletadaEm_visitarSala st q h
    | false =>
      dsimp only
      obtain ⟨ih1, ih2⟩ := ih st2
      constructor
      · rw [ih1, hmapa]
        exact pistaEm_visitarSala st q
      · intro h
        refine ih2 ?_
        rw [hmapa]
        exact coletadaEm_visitarSala st q h

/-! ### Classification helpers for the command loop -/

theorem tolowerByte_idem (c : Nat) :
    tolowerByte (tolowerByte c) = tolowerByte c := by
  unfold tolowerByte
  split_ifs <;> omega

theorem tolowerByte_ne_dez {c : Nat} (h : c ≠ 10) : tolowerByte c ≠ 10 := by
  unfold tolowerByte
  split_ifs <;> omega

theorem processarComando_cabeca (st : Estado) {l : List Nat} {c0 : Nat}
    {rest : List Nat} (h : trim_nl l = c0 :: rest) :
    processarComando st l = processarComando st [tolowerByte c0] := by
  by_cases h10 : c0 = 10
  · subst h10
    unfold processarComando
    rw [h]
    rfl
  · have ht : trim_nl [tolowerByte c0] = [tolowerByte c0] := by
      unfold trim_nl
      simp [tolowerByte_ne_dez h10]
    unfold processarComando
    rw [h, ht]
    dsimp only
    rw [tolowerByte_idem]

/-! ### Concrete data used by witnesses and counterexamples -/

/-- Single-letter clue and suspect names: A, B, C and X, Y, Z. -/
def pistaA : List Nat := [65]

def pistaB : List Nat := [66]

def pistaC : List Nat := [67]

def suspeitoX : List Nat := [88]

def suspeitoY : List Nat := [89]

def suspeitoZ : List Nat := [90]

/-- Association Table with A→X, B→Y, C→X. -/
def tabelaExemplo : Tabela :=
  montarTabela [(pistaA, suspeitoX), (pistaB, suspeitoY), (pistaC, suspeitoX)]

/-- Ledger holding A (count 2), B (count 1), C (count 1). -/
def ledgerExemplo : PistaNode :=
  [pistaA, pistaB, pistaC, pistaA].foldl inserirPista PistaNode.nulo

/-- A two-room map: the root holds an already-collected clue A and a left
child with an uncollected clue B; there is no right child. -/
def mapaExemplo : Sala :=
  Sala.mk [72] (some pistaA) true
    (Sala.mk [66] (some pistaB) false Sala.nulo Sala.nulo)
    Sala.nulo

/-- Exploration state sitting at the root of `mapaExemplo`. -/
def estadoExemplo : Estado :=
  { mapa := mapaExemplo, caminho := [], pistas := PistaNode.nulo }

/-- Small BST with keys A and B, used as a witness tree. -/
def arvoreExemplo : PistaNode :=
  inserirPista (inserirPista PistaNode.nulo pistaA) pistaB

/-! ### Claims -/

/-- Claim C1: `contarPistasQueApontam` returns, for every ledger and
target, the sum of the counters of exactly those nodes whose clue
resolves through the Association Table to a suspect equal to the
target; every node is visited (the result is the sum over the whole
in-order listing) and an unresolved clue contributes zero. On the
spec's example table {A→X, B→Y, C→X} and ledger {A:2, B:1, C:1} the
target X tallies 3 and the target Z tallies 0. -/
theorem claim_C1 :
    (∀ (tbl : Tabela) (t : PistaNode) (alvo : List Nat),
      contarPistasQueApontam tbl t alvo =
        (((exibirPistasInOrder t).filter
            (fun e => decide (encontrarSuspeito tbl e.1 = some alvo))).map
          Prod.snd).sum) ∧
    contarPistasQueApontam tabelaExemplo ledgerExemplo suspeitoX = 3 ∧
    contarPistasQueApontam tabelaExemplo ledgerExemplo suspeitoZ = 0 := by
  refine ⟨contarPistasQueApontam_soma, by decide, by decide⟩

/-- Claim C2: for every non-empty (after newline-trimming) accusation,
`main` reports the tally together with the verdict of `avaliarVeredicto`,
which is SUSTAINED exactly when the tally is at least 2; a tally of 2 is
SUSTAINED and tallies 0 and 1 are WEAK. -/
theorem claim_C2 (entrada : List Nat) (root : PistaNode) (tbl : Tabela)
    (h : trim_nl entrada ≠ []) :
    faseAcusacao entrada root tbl =
      ResultadoAcusacao.acusado
        (contarPistasQueApontam tbl root (trim_nl entrada))
        (avaliarVeredicto (contarPistasQueApontam tbl root (trim_nl entrada))) ∧
    (∀ n, avaliarVeredicto n = Veredicto.sustentada ↔ 2 ≤ n) ∧
    avaliarVeredicto 2 = Veredicto.sustentada ∧
    avaliarVeredicto 1 = Veredicto.fraca ∧
    avaliarVeredicto 0 = Veredicto.fraca := by
  refine ⟨?_, ?_, rfl, rfl, rfl⟩
  · unfold faseAcusacao
    cases ht : trim_nl entrada with
    | nil => exact absurd ht h
    | cons c cs => rfl
  · intro n
    unfold avaliarVeredicto
    split_ifs with hn
    · simp [hn]
    · simp [hn]

theorem claim_C2_witness :
    trim_nl [88] ≠ [] ∧
    faseAcusacao [88] ledgerExemplo tabelaExemplo =
      ResultadoAcusacao.acusado
        (contarPistasQueApontam tabelaExemplo ledgerExemplo (trim_nl [88]))
        (avaliarVeredicto
          (contarPistasQueApontam tabelaExemplo ledgerExemplo (trim_nl [88]))) ∧
    faseAcusacao [88] ledgerExemplo tabelaExemplo =
      ResultadoAcusacao.acusado 3 Veredicto.sustentada := by
  refine ⟨by decide, (claim_C2 [88] ledgerExemplo tabelaExemplo (by decide)).1,
    by decide⟩

/-- Claim C3: after any sequence of insertions into an initially empty
ledger, the in-order traversal lists the stored (clue, count) entries in
strictly ascending `strcmp` order of their clues. -/
theorem claim_C3 (ps : List (List Nat)) :
    List.Pairwise (fun a b => strcmp a.1 b.1 = Ordering.lt)
      (exibirPistasInOrder (ps.foldl inserirPista PistaNode.nulo)) :=
  ehBST_pairwise (ehBST_foldl rfl)

/-- Claim C4: inserting the same clue N ≥ 1 times into an empty ledger
yields a single node with count N; inserting K pairwise-distinct clues
yields K nodes, each with count 1; and inserting a clue already present
in a BST increments exactly its count, leaving the shape and the key
multiset untouched. -/
theorem claim_C4 :
    (∀ (p : List Nat) (n : Nat),
      (List.replicate (n + 1) p).foldl inserirPista PistaNode.nulo =
        PistaNode.no p (n + 1) PistaNode.nulo PistaNode.nulo) ∧
    (∀ ps : List (List Nat), ps.Pairwise (· ≠ ·) →
      numNos (ps.foldl inserirPista PistaNode.nulo) = ps.length ∧
      ∀ e ∈ exibirPistasInOrder (ps.foldl inserirPista PistaNode.nulo),
        e.2 = 1) ∧
    (∀ (t : PistaNode) (p : List Nat), ehBST t = true → p ∈ chaves t →
      forma (inserirPista t p) = forma t ∧
      chaves (inserirPista t p) = chaves t ∧
      contadorDe (inserirPista t p) p = contadorDe t p + 1 ∧
      ∀ q, q ≠ p → contadorDe (inserirPista t p) q = contadorDe t q) := by
  refine ⟨?_, ?_, ?_⟩
  · intro p n
    rw [List.replicate_succ, List.foldl_cons]
    have h0 : inserirPista PistaNode.nulo p =
        PistaNode.no p 1 PistaNode.nulo PistaNode.nulo := rfl
    rw [h0, foldl_inserirPista_repetida p n 1]
    congr 1
    omega
  · intro ps hps
    have := @foldl_inserirPista_distintas ps PistaNode.nulo hps
      (by simp [chaves]) (by simp [exibirPistasInOrder])
    simpa [numNos] using this
  · intro t p hb hp
    exact inserirPista_presente hb hp

theorem claim_C4_witness :
    List.Pairwise (· ≠ ·) [pistaA, pistaB] ∧
    numNos (([pistaA, pistaB] : List (List Nat)).foldl inserirPista
      PistaNode.nulo) = 2 ∧
    ehBST arvoreExemplo = true ∧ pistaA ∈ chaves arvoreExemplo ∧
    contadorDe (inserirPista arvoreExemplo pistaA) pistaA =
      contadorDe arvoreExemplo pistaA + 1 := by
  refine ⟨by decide, ?_, by decide, by decide, ?_⟩
  · exact (claim_C4.2.1 [pistaA, pistaB] (by decide)).1
  · exact (claim_C4.2.2 arvoreExemplo pistaA (by decide) (by decide)).2.2.1

/-- Claim C5: after any insertion sequence into the empty table, lookup
of a clue returns the suspect of the most recently inserted entry with
that exact key (the first match of the reversed sequence), and lookup of
a never-inserted clue returns the NULL / not-found signal. -/
theorem claim_C5 (es : List (List Nat × List Nat)) (q : List Nat) :
    encontrarSuspeito (montarTabela es) q =
      (es.reverse.find? (fun e => e.1 == q)).map Prod.snd ∧
    ((∀ e ∈ es, e.1 ≠ q) → encontrarSuspeito (montarTabela es) q = none) := by
  have hmain : encontrarSuspeito (montarTabela es) q =
      (es.reverse.find? (fun e => e.1 == q)).map Prod.snd := by
    unfold montarTabela
    rw [encontrarSuspeito_foldl]
    cases hr : es.reverse.find? (fun e => e.1 == q) with
    | some e => rfl
    | none => simp [encontrarSuspeito, tabelaVazia]
  refine ⟨hmain, ?_⟩
  intro hnone
  rw [hmain]
  have hfind : es.reverse.find? (fun e => e.1 == q) = none := by
    rw [List.find?_eq_none]
    intro x hx
    simp only [beq_iff_eq]
    exact hnone x (List.mem_reverse.mp hx)
  rw [hfind]
  rfl

theorem claim_C5_witness :
    encontrarSuspeito (montarTabela [(pistaA, suspeitoX), (pistaA, suspeitoY)])
      pistaA = some suspeitoY ∧
    encontrarSuspeito (montarTabela [(pistaA, suspeitoX), (pistaA, suspeitoY)])
      pistaB = none := by
  constructor
  · rw [(claim_C5 [(pistaA, suspeitoX), (pistaA, suspeitoY)] pistaA).1]
    decide
  · exact (claim_C5 [(pistaA, suspeitoX), (pistaA, suspeitoY)] pistaB).2
      (by decide)

/-- Claim C6: when the accusation line is empty after newline-trimming,
`main` produces the distinct no-accusation outcome; it never produces a
tally/verdict outcome (in particular not WEAK with tally 0). -/
theorem claim_C6 (entrada : List Nat) (root : PistaNode) (tbl : Tabela)
    (h : trim_nl entrada = []) :
    faseAcusacao entrada root tbl = ResultadoAcusacao.semAcusacao ∧
    ∀ total v,
      faseAcusacao entrada root tbl ≠ ResultadoAcusacao.acusado total v := by
  have hfase : faseAcusacao entrada root tbl = ResultadoAcusacao.semAcusacao := by
    unfold faseAcusacao
    rw [h]
  refine ⟨hfase, ?_⟩
  intro total v
  rw [hfase]
  intro hc
  cases hc

theorem claim_C6_witness :
    trim_nl [10] = [] ∧
    faseAcusacao [10] PistaNode.nulo tabelaVazia =
      ResultadoAcusacao.semAcusacao := by
  exact ⟨rfl, (claim_C6 [10] PistaNode.nulo tabelaVazia rfl).1⟩

/-- Claim C7: across any exploration run, every room's clue is never
modified, a collected flag that is true stays true (so it goes false to
true at most once and never back), and visiting a room whose clue is
already collected changes nothing — in particular no ledger insertion
happens, so every clue count is unchanged. -/
theorem claim_C7 (st : Estado) (linhas : List (List Nat)) (q : List Bool) :
    pistaEm (explorarSalasComPistas st linhas).mapa q = pistaEm st.mapa q ∧
    (coletadaEm st.mapa q = some true →
      coletadaEm (explorarSalasComPistas st linhas).mapa q = some true) ∧
    (coletadaEm st.mapa st.caminho = some true → visitarSala st = st) := by
  obtain ⟨h1, h2⟩ := explorar_preserva st linhas q
  exact ⟨h1, h2, visitarSala_ja_coletada st⟩

theorem claim_C7_witness :
    coletadaEm estadoExemplo.mapa estadoExemplo.caminho = some true ∧
    visitarSala estadoExemplo = estadoExemplo ∧
    coletadaEm (explorarSalasComPistas estadoExemplo [[101]]).mapa [] =
      some true := by
  refine ⟨rfl, ?_, ?_⟩
  · exact (claim_C7 estadoExemplo [[101]] []).2.2 rfl
  · exact (claim_C7 estadoExemplo [[101]] []).2.1 rfl

/-- Claim C8: a left/right command toward a missing child, and any
command that is none of s/e/d, each leave the whole exploration state
(current room, room tree and ledger) unchanged and do not stop the
loop. -/
theorem claim_C8 (st : Estado) (l : List Nat) (c0 : Nat) (rest : List Nat)
    (h : trim_nl l = c0 :: rest) :
    (tolowerByte c0 = 101 →
      salaEm st.mapa (st.caminho ++ [false]) = Sala.nulo →
      processarComando st l = (st, false)) ∧
    (tolowerByte c0 = 100 →
      salaEm st.mapa (st.caminho ++ [true]) = Sala.nulo →
      processarComando st l = (st, false)) ∧
    (tolowerByte c0 ≠ 115 → tolowerByte c0 ≠ 101 → tolowerByte c0 ≠ 100 →
      processarComando st l = (st, false)) := by
  refine ⟨?_, ?_, ?_⟩
  · intro he hnulo
    unfold processarComando
    rw [h]
    dsimp only
    rw [he]
    have hmov : moverEsquerda st = st := by
      unfold moverEsquerda
      rw [hnulo]
    simp [hmov]
  · intro hd hnulo
    unfold processarComando
    rw [h]
    dsimp only
    rw [hd]
    have hmov : moverDireita st = st := by
      unfold moverDireita
      rw [hnulo]
    simp [hmov]
  · intro hs he hd
    unfold processarComando
    rw [h]
    dsimp only
    rw [if_neg hs, if_neg he, if_neg hd]

theorem claim_C8_witness :
    trim_nl [100] = 100 :: [] ∧
    salaEm estadoExemplo.mapa (estadoExemplo.caminho ++ [true]) = Sala.nulo ∧
    processarComando estadoExemplo [100] = (estadoExemplo, false) ∧
    processarComando estadoExemplo [120] = (estadoExemplo, false) := by
  refine ⟨rfl, rfl, ?_, ?_⟩
  · exact (claim_C8 estadoExemplo [100] 100 [] rfl).2.1 (by decide) rfl
  · exact (claim_C8 estadoExemplo [120] 120 [] rfl).2.2 (by decide) (by decide)
      (by decide)

/-- Claim C9 (amended): command classification is case-insensitive and
determined solely by the lowercased first byte of the newline-trimmed
line; leading and trailing whitespace is NOT stripped, so a line whose
first byte is a space or tab is an invalid command that leaves the
state unchanged. The counterexample shows a command letter surrounded
by spaces is not recognized as that command. -/
theorem claim_C9 (st : Estado) (l1 l2 : List Nat) (c1 c2 : Nat)
    (r1 r2 : List Nat) (h1 : trim_nl l1 = c1 :: r1)
    (h2 : trim_nl l2 = c2 :: r2) (hc : tolowerByte c1 = tolowerByte c2) :
    processarComando st l1 = processarComando st l2 ∧
    ((c1 = 32 ∨ c1 = 9) → processarComando st l1 = (st, false)) := by
  constructor
  · rw [processarComando_cabeca st h1, processarComando_cabeca st h2, hc]
  · intro hw
    unfold processarComando
    rw [h1]
    dsimp only
    rcases hw with hw | hw <;> subst hw <;> rfl

theorem claim_C9_counterexample :
    processarComando estadoExemplo [32, 101, 32] = (estadoExemplo, false) ∧
    processarComando estadoExemplo [101] =
      ({ estadoExemplo with caminho := [false] }, false) ∧
    ([] : List Bool) ≠ [false] := by
  refine ⟨by decide, by decide, by decide⟩

theorem claim_C9_witness :
    trim_nl [69, 120] = 69 :: [120] ∧ trim_nl [101] = 101 :: [] ∧
    tolowerByte 69 = tolowerByte 101 ∧
    processarComando estadoExemplo [69, 120] =
      processarComando estadoExemplo [101] ∧
    trim_nl [32, 101, 32] = 32 :: [101, 32] ∧
    processarComando estadoExemplo [32, 101, 32] = (estadoExemplo, false) := by
  refine ⟨rfl, rfl, rfl, ?_, rfl, ?_⟩
  · exact (claim_C9 estadoExemplo [69, 120] [101] 69 101 [120] [] rfl rfl
      rfl).1
  · exact (claim_C9 estadoExemplo [32, 101, 32] [32, 101, 32] 32 32 [101, 32]
      [101, 32] rfl rfl rfl).2 (Or.inl rfl)

/-- Claim C10: command handling depends only on the lowercased first
byte of the trimmed, non-empty line; a first byte lowering to s exits,
to e attempts the left move and to d attempts the right move, with the
rest of the line ignored (so a line such as "exit" attempts a left move
instead of exiting, as the witness shows). -/
theorem claim_C10 (st : Estado) (l : List Nat) (c0 : Nat) (rest : List Nat)
    (h : trim_nl l = c0 :: rest) :
    processarComando st l = processarComando st [tolowerByte c0] ∧
    (tolowerByte c0 = 115 → processarComando st l = (st, true)) ∧
    (tolowerByte c0 = 101 →
      processarComando st l = (moverEsquerda st, false)) ∧
    (tolowerByte c0 = 100 →
      processarComando st l = (moverDireita st, false)) := by
  refine ⟨processarComando_cabeca st h, ?_, ?_, ?_⟩
  · intro hs
    unfold processarComando
    rw [h]
    dsimp only
    rw [if_pos hs]
  · intro he
    unfold processarComando
    rw [h]
    dsimp only
    rw [he]
    simp
  · intro hd
    unfold processarComando
    rw [h]
    dsimp only
    rw [hd]
    simp

theorem claim_C10_witness :
    trim_nl [101, 120, 105, 116] = 101 :: [120, 105, 116] ∧
    processarComando estadoExemplo [101, 120, 105, 116] =
      (moverEsquerda estadoExemplo, false) ∧
    (moverEsquerda estadoExemplo).caminho = [false] ∧
    (processarComando estadoExemplo [101, 120, 105, 116]).2 = false := by
  refine ⟨rfl, ?_, rfl, ?_⟩
  · exact (claim_C10 estadoExemplo [101, 120, 105, 116] 101 [120, 105, 116]
      rfl).2.2.1 rfl
  · rw [(claim_C10 estadoExemplo [101, 120, 105, 116] 101 [120, 105, 116]
      rfl).2.2.1 rfl]
